import Mathlib

/-!
Verification of the core game logic of a grid-based snake game
(src/main.cpp).  The data model and every operation below are shallow
embeddings of the corresponding C++ entities: the grid (`game_field_t`),
the snake (`snake_t`), the fruit (`fruit_t`) and the per-tick controller
logic (`game_logic_t::game_loop` / `handle_movement`).  Exceptions thrown
by the C++ movement routines are modelled as `Option` results (`none` is
the thrown `BlockedMove`); the random fruit placement is modelled as a
nondeterministic choice constrained exactly as the sampling loop
constrains it.
-/

set_option maxRecDepth 4000

/-- Cell states stored in the grid, from `game_field_t::cell_type`.
`ERROR` is the out-of-bounds sentinel returned by `game_field_t::at`. -/
inductive cell_type where
  | EMPTY
  | SNAKE_HEAD
  | SNAKE_BODY
  | FRUIT
  | ERROR
deriving DecidableEq, Repr

/-- A grid position, from `position_t` (row `i`, column `j`). -/
structure position_t where
  i : Int
  j : Int
deriving DecidableEq, Repr

/-- `globals::field_width`. -/
def field_width : Int := 10

/-- `globals::field_height`. -/
def field_height : Int := 10

/-- The grid contents, modelling `game_field_t::m_field` as a total map on
positions; only in-bounds cells are ever written by the game. -/
def Grid : Type := position_t → cell_type

/-- The freshly constructed grid: every cell `EMPTY`
(`game_field_t::game_field_t`). -/
def emptyGrid : Grid := fun _ => .EMPTY

/-- A single write `m_field[p.i][p.j] = c`. -/
def gridSet (f : Grid) (p : position_t) (c : cell_type) : Grid :=
  fun q => if q = p then c else f q

/-- Position lies within `[0,height) x [0,width)`. -/
def inBounds (p : position_t) : Prop :=
  0 ≤ p.i ∧ p.i < field_height ∧ 0 ≤ p.j ∧ p.j < field_width

instance (p : position_t) : Decidable (inBounds p) := by
  unfold inBounds; exact inferInstance

/-- The bounds-checked accessor `game_field_t::at` (note: the source
compares `t_i` against `width` and `t_j` against `height`, which is
embedded verbatim; the two constants are equal). -/
def field_at (f : Grid) (ti tj : Int) : cell_type :=
  if ti ≥ field_width ∨ ti < 0 ∨ tj ≥ field_height ∨ tj < 0 then .ERROR
  else f ⟨ti, tj⟩

/-- Movement directions, from `game_logic_t::direction_type`. -/
inductive direction_type where
  | UP
  | DOWN
  | LEFT
  | RIGHT
deriving DecidableEq, Repr

/-- The candidate head position one step from `p` in direction `d`
(the offsets applied by `lengthen_snake_up/down/left/right` and by
`is_fruit_in_direction`). -/
def candidate (d : direction_type) (p : position_t) : position_t :=
  match d with
  | .UP => ⟨p.i - 1, p.j⟩
  | .DOWN => ⟨p.i + 1, p.j⟩
  | .LEFT => ⟨p.i, p.j - 1⟩
  | .RIGHT => ⟨p.i, p.j + 1⟩

/-- The per-direction boundary test that makes `lengthen_snake_*` throw:
`head.i <= 0` for up, `head.i >= height - 1` for down,
`head.j <= 0` for left, `head.j >= width - 1` for right. -/
def boundsFail (d : direction_type) (p : position_t) : Bool :=
  match d with
  | .UP => decide (p.i ≤ 0)
  | .DOWN => decide (p.i ≥ field_height - 1)
  | .LEFT => decide (p.j ≤ 0)
  | .RIGHT => decide (p.j ≥ field_width - 1)

/-- `snake_t::is_space_for_snake`: the target cell is `EMPTY` or `FRUIT`. -/
def is_space_for_snake (f : Grid) (p : position_t) : Bool :=
  decide (f p = .EMPTY ∨ f p = .FRUIT)

/-- `snake_t::update_field`: mark the first position `SNAKE_HEAD`, every
later position `SNAKE_BODY`. -/
def update_field (f : Grid) (ps : List position_t) : Grid :=
  match ps with
  | [] => f
  | h :: t => t.foldl (fun g p => gridSet g p .SNAKE_BODY) (gridSet f h .SNAKE_HEAD)

/-- `snake_t::pop_back_snake_body`: blank the tail cell and drop the tail
position.  (The C++ version is only ever called on a nonempty list; the
empty case is inert.) -/
def pop_back_snake_body (f : Grid) (ps : List position_t) :
    Grid × List position_t :=
  match ps.getLast? with
  | none => (f, ps)
  | some lastp => (gridSet f lastp .EMPTY, ps.dropLast)

/-- `snake_t::lengthen_snake_up/down/left/right`, one definition indexed by
the direction (the four C++ bodies are textual copies differing only in
the offset and boundary test).  `none` models the thrown `BlockedMove`;
success prepends the candidate and rewrites the grid via `update_field`.
The C++ calls `front()` on the position list, which is nonempty by
construction; the empty case is mapped to the error result. -/
def lengthen_snake (d : direction_type) (f : Grid) (ps : List position_t) :
    Option (Grid × List position_t) :=
  match ps with
  | [] => none
  | h :: t =>
    if boundsFail d h then none
    else if is_space_for_snake f (candidate d h) then
      some (update_field f (candidate d h :: h :: t), candidate d h :: h :: t)
    else none

/-- `snake_t::move_up/down/left/right`: lengthen, then pop the tail.  If
the lengthen throws, the pop never runs. -/
def move_snake (d : direction_type) (f : Grid) (ps : List position_t) :
    Option (Grid × List position_t) :=
  (lengthen_snake d f ps).map (fun r => pop_back_snake_body r.1 r.2)

/-- The keys the tick handler inspects (`SDL_SCANCODE_UP/...` plus the
catch-all `default`). -/
inductive key_t where
  | KEY_UP
  | KEY_DOWN
  | KEY_LEFT
  | KEY_RIGHT
  | KEY_ESCAPE
  | KEY_OTHER
deriving DecidableEq, Repr

/-- The direction update performed by the key switch in
`game_logic_t::game_loop`: a direction key is ignored when it is the exact
reverse of the current heading; escape and other keys leave the heading
unchanged. -/
def updateDirection (d : direction_type) (k : key_t) : direction_type :=
  match k with
  | .KEY_UP => if d = .DOWN then d else .UP
  | .KEY_LEFT => if d = .RIGHT then d else .LEFT
  | .KEY_DOWN => if d = .UP then d else .DOWN
  | .KEY_RIGHT => if d = .LEFT then d else .RIGHT
  | .KEY_ESCAPE => d
  | .KEY_OTHER => d

/-- `game_logic_t::is_fruit_in_direction`: read the cell one step ahead of
the head with the unchecked `operator()` and compare with `FRUIT`. -/
def is_fruit_in_direction (f : Grid) (ps : List position_t)
    (d : direction_type) : Bool :=
  match ps with
  | [] => false
  | h :: _ => decide (f (candidate d h) = .FRUIT)

/-- The game session state owned by `game_logic_t::game_loop`: the shared
grid, the snake's position list (`snake_t::m_snake_positions`, head
first), the fruit position (`fruit_t::m_position`), the current heading
(`m_direction`) and the running flag (`m_game_running`). -/
structure game_state where
  grid : Grid
  snake : List position_t
  fruit : position_t
  direction : direction_type
  running : Bool

/-- `game_logic_t::handle_movement` for a fixed post-switch direction.
The relocation target `pick` stands for the value returned by
`fruit_t::gen_new_position`; it is only consulted on the fruit branch
after a successful lengthen, exactly where the C++ calls
`fruit_t::new_position`.  The returned `Bool` is the resulting
`m_game_running` contribution: `false` exactly when a `BlockedMove` was
caught. -/
def handle_movement (f : Grid) (ps : List position_t) (fr : position_t)
    (d : direction_type) (pick : position_t) :
    Grid × List position_t × position_t × Bool :=
  if is_fruit_in_direction f ps d then
    match lengthen_snake d f ps with
    | some r => (gridSet r.1 pick .FRUIT, r.2, pick, true)
    | none => (f, ps, fr, false)
  else
    match move_snake d f ps with
    | some r => (r.1, r.2, fr, true)
    | none => (f, ps, fr, false)

/-- One logic tick of `game_logic_t::game_loop` (the body guarded by
`waited_time >= max_wait_time_ms`): run the key switch, then
`handle_movement`.  Note the source runs `handle_movement` even when the
key was escape; escape only clears the running flag. -/
def tick (s : game_state) (k : key_t) (pick : position_t) : game_state :=
  let d := updateDirection s.direction k
  let r := handle_movement s.grid s.snake s.fruit d pick
  { grid := r.1
    snake := r.2.1
    fruit := r.2.2.1
    direction := d
    running := (if k = .KEY_ESCAPE then false else s.running) && r.2.2.2 }

/-- The snake's starting cell `(height/2 - 1, width/2 - 1)` from the
`snake_t` constructor. -/
def snakeStart : position_t := ⟨field_height / 2 - 1, field_width / 2 - 1⟩

/-- The grid right after `snake_t` is constructed. -/
def snakeInitGrid : Grid := update_field emptyGrid [snakeStart]

/-- The postcondition of `fruit_t::gen_new_position` on grid `f`: both
coordinates come from `uniform_int_distribution{0, height - 1}` (the
source uses `height` for both), and the rejection loop only exits on an
`EMPTY` cell. -/
def validPick (f : Grid) (p : position_t) : Bool :=
  decide (0 ≤ p.i ∧ p.i ≤ field_height - 1 ∧ 0 ≤ p.j ∧
    p.j ≤ field_height - 1 ∧ f p = .EMPTY)

/-- The session state right after `game_loop` constructs the field, the
snake and the fruit (fruit at the sampled position `p`). -/
def init_state (p : position_t) : game_state :=
  { grid := gridSet snakeInitGrid p .FRUIT
    snake := [snakeStart]
    fruit := p
    direction := .UP
    running := true }

/-- The lengthen attempt a tick performs on its fruit branch, if that
branch is taken (used to phrase which ticks relocate the fruit). -/
def growth_attempt (s : game_state) (k : key_t) :
    Option (Grid × List position_t) :=
  let d := updateDirection s.direction k
  if is_fruit_in_direction s.grid s.snake d
  then lengthen_snake d s.grid s.snake
  else none

/-- Validity of the relocation sample consumed by a tick: when the tick
relocates the fruit (fruit branch, successful lengthen), the sample must
satisfy the `gen_new_position` postcondition on the grid as it stands
after the growth (`fruit_t::gen_new_position` reads the live field). -/
def PickOK (s : game_state) (k : key_t) (pick : position_t) : Bool :=
  match growth_attempt s k with
  | some r => validPick r.1 pick
  | none => true

/-- The states the session can be in: the freshly constructed state (for
any admissible fruit sample) and everything ticks reach from a running
state, for any key and any admissible relocation sample. -/
inductive Reachable : game_state → Prop where
  | init (p : position_t) (h : validPick snakeInitGrid p = true) :
      Reachable (init_state p)
  | step (s : game_state) (k : key_t) (pick : position_t)
      (hs : Reachable s) (hrun : s.running = true)
      (hp : PickOK s k pick = true) : Reachable (tick s k pick)

/-- Grid adjacency: the two positions differ by one in exactly one axis. -/
def adjacent (p q : position_t) : Prop :=
  ((p.i - q.i = 1 ∨ q.i - p.i = 1) ∧ p.j = q.j) ∨
  (p.i = q.i ∧ (p.j - q.j = 1 ∨ q.j - p.j = 1))

instance (p q : position_t) : Decidable (adjacent p q) := by
  unfold adjacent; exact inferInstance

/-- The cell state each position ought to hold in a well-formed session
state: the head cell is `SNAKE_HEAD`, body cells are `SNAKE_BODY`, the
fruit cell is `FRUIT`, everything else is `EMPTY`. -/
def cellOf (s : game_state) (p : position_t) : cell_type :=
  if s.snake.head? = some p then .SNAKE_HEAD
  else if p ∈ s.snake.tail then .SNAKE_BODY
  else if p = s.fruit then .FRUIT
  else .EMPTY

/-- The session invariant: snake nonempty, self-avoiding, in bounds and
connected; fruit in bounds and off the snake; and the grid agrees
pointwise with the intended cell states. -/
structure GameInv (s : game_state) : Prop where
  ne : s.snake ≠ []
  nodup : s.snake.Nodup
  inb : ∀ p ∈ s.snake, inBounds p
  adj : s.snake.Chain' adjacent
  fruit_inb : inBounds s.fruit
  fruit_free : s.fruit ∉ s.snake
  corr : ∀ p, s.grid p = cellOf s p

/-- The rejection-sampling loop of `fruit_t::gen_new_position`, with the
random samples abstracted as a stream of positions and an explicit fuel
bound: `gen_loop f stream k fuel` inspects samples `k, k+1, ...` and
returns the first that lands on an `EMPTY` cell, or `none` if `fuel`
samples are exhausted first.  The C++ loop terminates exactly when some
fuel suffices. -/
def gen_loop (f : Grid) (stream : Nat → position_t) :
    Nat → Nat → Option position_t
  | _, 0 => none
  | k, fuel + 1 =>
    if f (stream k) = .EMPTY then some (stream k)
    else gen_loop f stream (k + 1) fuel

/-- The sampling loop never returns on grid `f` with sample stream
`stream`, i.e. the C++ `while` loop runs forever. -/
def gen_never_returns (f : Grid) (stream : Nat → position_t) : Prop :=
  ∀ fuel k, gen_loop f stream k fuel = none

/-- The position `is_fruit_in_direction` inspects on a tick with key `k`:
one step ahead of the head in the post-switch heading. -/
def fruit_query_pos (s : game_state) (k : key_t) : Option position_t :=
  s.snake.head?.map (candidate (updateDirection s.direction k))

/-- A tick whose movement (growth on the fruit branch, plain move
otherwise) throws `BlockedMove`. -/
def tickBlocked (s : game_state) (k : key_t) : Bool :=
  let d := updateDirection s.direction k
  if is_fruit_in_direction s.grid s.snake d
  then (lengthen_snake d s.grid s.snake).isNone
  else (move_snake d s.grid s.snake).isNone

/-- The score `game_loop` reports: `m_score = snake.get_length()`,
assigned after the loop exits. -/
def session_score (s : game_state) : Nat := s.snake.length

/-- All in-bounds positions, as a finite set (for counting cells). -/
def boundedPos : Finset position_t :=
  ((Finset.Icc (0 : Int) (field_height - 1)) ×ˢ
    (Finset.Icc (0 : Int) (field_width - 1))).image
    (fun q => ⟨q.1, q.2⟩)

/-- The number of in-bounds grid cells holding state `c`. -/
def countCell (s : game_state) (c : cell_type) : Nat :=
  (boundedPos.filter (fun p => s.grid p = c)).card

/-- The reverse of a heading. -/
def reverse_direction : direction_type → direction_type
  | .UP => .DOWN
  | .DOWN => .UP
  | .LEFT => .RIGHT
  | .RIGHT => .LEFT

/-- The key whose direction is `d`. -/
def key_of_direction : direction_type → key_t
  | .UP => .KEY_UP
  | .DOWN => .KEY_DOWN
  | .LEFT => .KEY_LEFT
  | .RIGHT => .KEY_RIGHT

/-- A fresh session whose fruit was sampled directly above the snake's
starting cell `(4,4)`. -/
def quit_tick_start : game_state := init_state ⟨3, 4⟩

/-- The session state after four up-ticks of a fresh session whose fruit
was sampled at `(9,9)`: the snake's head sits on the top edge at `(0,4)`,
still heading up. -/
def edge_state : game_state :=
  tick (tick (tick (tick (init_state ⟨9, 9⟩) .KEY_OTHER ⟨9, 9⟩) .KEY_OTHER ⟨9, 9⟩)
    .KEY_OTHER ⟨9, 9⟩) .KEY_OTHER ⟨9, 9⟩

/-- The growth result of the up-tick of `quit_tick_start` taken without
quitting: the snake grows onto the fruit cell `(3,4)`. -/
def c7_growth : Grid × List position_t :=
  (update_field (init_state ⟨3, 4⟩).grid [⟨3, 4⟩, ⟨4, 4⟩], [⟨3, 4⟩, ⟨4, 4⟩])

/-! ### Basic lemmas about the grid and the movement primitives -/

theorem foldl_body_apply (t : List position_t) (g : Grid) (p : position_t) :
    (t.foldl (fun g q => gridSet g q .SNAKE_BODY) g) p =
      if p ∈ t then .SNAKE_BODY else g p := by
  induction t generalizing g with
  | nil => simp
  | cons a t ih =>
    simp only [List.foldl_cons, ih, List.mem_cons]
    by_cases hp : p ∈ t
    · simp [hp]
    · by_cases hpa : p = a <;> simp [hp, hpa, gridSet]

theorem update_field_apply (f : Grid) (h : position_t) (t : List position_t)
    (p : position_t) :
    update_field f (h :: t) p =
      if p ∈ t then .SNAKE_BODY else if p = h then .SNAKE_HEAD else f p := by
  simp only [update_field, foldl_body_apply, gridSet]

theorem boundsFail_iff (d : direction_type) (p : position_t)
    (hp : inBounds p) : boundsFail d p = true ↔ ¬ inBounds (candidate d p) := by
  obtain ⟨h1, h2, h3, h4⟩ := hp
  cases d <;>
    simp only [boundsFail, candidate, inBounds, field_width, field_height,
      decide_eq_true_eq] at * <;> omega

theorem adjacent_candidate (d : direction_type) (p : position_t) :
    adjacent (candidate d p) p := by
  cases d <;> simp [adjacent, candidate]

theorem is_space_iff (f : Grid) (p : position_t) :
    is_space_for_snake f p = true ↔ (f p = .EMPTY ∨ f p = .FRUIT) := by
  simp [is_space_for_snake]

theorem lengthen_snake_cons (d : direction_type) (f : Grid) (h : position_t)
    (t : List position_t) :
    lengthen_snake d f (h :: t) =
      if boundsFail d h then none
      else if is_space_for_snake f (candidate d h) then
        some (update_field f (candidate d h :: h :: t), candidate d h :: h :: t)
      else none := rfl

theorem lengthen_snake_eq_none_iff (d : direction_type) (f : Grid)
    (h : position_t) (t : List position_t) :
    lengthen_snake d f (h :: t) = none ↔
      boundsFail d h = true ∨ is_space_for_snake f (candidate d h) = false := by
  rw [lengthen_snake_cons]
  by_cases hb : boundsFail d h <;>
    by_cases hsp : is_space_for_snake f (candidate d h) <;> simp [hb, hsp]

theorem lengthen_snake_eq_some_iff (d : direction_type) (f : Grid)
    (h : position_t) (t : List position_t) (r : Grid × List position_t) :
    lengthen_snake d f (h :: t) = some r ↔
      boundsFail d h = false ∧ is_space_for_snake f (candidate d h) = true ∧
      r = (update_field f (candidate d h :: h :: t), candidate d h :: h :: t) := by
  rw [lengthen_snake_cons]
  by_cases hb : boundsFail d h <;>
    by_cases hsp : is_space_for_snake f (candidate d h) <;>
      simp [hb, hsp, eq_comm]

theorem cellOf_eval (s : game_state) (h : position_t) (t : List position_t)
    (hs : s.snake = h :: t) (p : position_t) :
    cellOf s p =
      if p = h then .SNAKE_HEAD else if p ∈ t then .SNAKE_BODY
      else if p = s.fruit then .FRUIT else .EMPTY := by
  unfold cellOf
  rw [hs]
  simp only [List.head?_cons, List.tail_cons, Option.some.injEq]
  by_cases hph : p = h
  · simp [hph]
  · have hhp : ¬(h = p) := fun hh => hph hh.symm
    simp [hph, hhp]

theorem cellOf_congr (s s' : game_state) (h1 : s'.snake = s.snake)
    (h2 : s'.fruit = s.fruit) (p : position_t) : cellOf s' p = cellOf s p := by
  unfold cellOf
  rw [h1, h2]

/-! ### Consequences of the session invariant -/

theorem grid_fruit_inv (s : game_state) (hInv : GameInv s) (p : position_t)
    (hf : s.grid p = .FRUIT) : p = s.fruit ∧ p ∉ s.snake := by
  obtain ⟨h, t, hs⟩ := List.exists_cons_of_ne_nil hInv.ne
  have hc := hInv.corr p
  rw [hf, cellOf_eval s h t hs p] at hc
  rcases Decidable.em (p = h) with hph | hph
  · rw [if_pos hph] at hc; exact absurd hc (by decide)
  · rw [if_neg hph] at hc
    rcases Decidable.em (p ∈ t) with hpt | hpt
    · rw [if_pos hpt] at hc; exact absurd hc (by decide)
    · rw [if_neg hpt] at hc
      rcases Decidable.em (p = s.fruit) with hpf | hpf
      · exact ⟨hpf, by rw [hs]; simp [hph, hpt]⟩
      · rw [if_neg hpf] at hc; exact absurd hc (by decide)

theorem grid_empty_inv (s : game_state) (hInv : GameInv s) (p : position_t)
    (hf : s.grid p = .EMPTY) : p ∉ s.snake ∧ p ≠ s.fruit := by
  obtain ⟨h, t, hs⟩ := List.exists_cons_of_ne_nil hInv.ne
  have hc := hInv.corr p
  rw [hf, cellOf_eval s h t hs p] at hc
  rcases Decidable.em (p = h) with hph | hph
  · rw [if_pos hph] at hc; exact absurd hc (by decide)
  · rw [if_neg hph] at hc
    rcases Decidable.em (p ∈ t) with hpt | hpt
    · rw [if_pos hpt] at hc; exact absurd hc (by decide)
    · rw [if_neg hpt] at hc
      rcases Decidable.em (p = s.fruit) with hpf | hpf
      · rw [if_pos hpf] at hc; exact absurd hc (by decide)
      · exact ⟨by rw [hs]; simp [hph, hpt], hpf⟩

theorem grid_at_fruit (s : game_state) (hInv : GameInv s) :
    s.grid s.fruit = .FRUIT := by
  obtain ⟨h, t, hs⟩ := List.exists_cons_of_ne_nil hInv.ne
  have hnm := hInv.fruit_free
  rw [hs] at hnm
  simp only [List.mem_cons, not_or] at hnm
  rw [hInv.corr, cellOf_eval s h t hs]
  simp [hnm.1, hnm.2]

theorem mem_cell_inv (s : game_state) (hInv : GameInv s) (p : position_t)
    (hp : p ∈ s.snake) :
    s.grid p = .SNAKE_HEAD ∨ s.grid p = .SNAKE_BODY := by
  obtain ⟨h, t, hs⟩ := List.exists_cons_of_ne_nil hInv.ne
  rw [hInv.corr, cellOf_eval s h t hs]
  rw [hs] at hp
  simp only [List.mem_cons] at hp
  by_cases hph : p = h
  · simp [hph]
  · simp [hph, hp.resolve_left hph]

/-! ### The four shapes a tick can take -/

theorem is_fruit_cons (f : Grid) (h : position_t) (t : List position_t)
    (d : direction_type) :
    is_fruit_in_direction f (h :: t) d = true ↔ f (candidate d h) = .FRUIT := by
  simp [is_fruit_in_direction]

theorem growth_attempt_eq (s : game_state) (k : key_t) (d : direction_type)
    (hd : updateDirection s.direction k = d) :
    growth_attempt s k =
      if is_fruit_in_direction s.grid s.snake d
      then lengthen_snake d s.grid s.snake else none := by
  subst hd; rfl

theorem tick_fruit_eq (s : game_state) (k : key_t) (pick : position_t)
    (d : direction_type) (r : Grid × List position_t)
    (hd : updateDirection s.direction k = d)
    (hfr : is_fruit_in_direction s.grid s.snake d = true)
    (hlen : lengthen_snake d s.grid s.snake = some r) :
    tick s k pick =
      { grid := gridSet r.1 pick .FRUIT, snake := r.2, fruit := pick,
        direction := d,
        running := if k = .KEY_ESCAPE then false else s.running } := by
  subst hd; simp [tick, handle_movement, hfr, hlen]

theorem tick_fruitfail_eq (s : game_state) (k : key_t) (pick : position_t)
    (d : direction_type)
    (hd : updateDirection s.direction k = d)
    (hfr : is_fruit_in_direction s.grid s.snake d = true)
    (hlen : lengthen_snake d s.grid s.snake = none) :
    tick s k pick =
      { grid := s.grid, snake := s.snake, fruit := s.fruit,
        direction := d, running := false } := by
  subst hd; simp [tick, handle_movement, hfr, hlen]

theorem tick_moveok_eq (s : game_state) (k : key_t) (pick : position_t)
    (d : direction_type) (r : Grid × List position_t)
    (hd : updateDirection s.direction k = d)
    (hfr : is_fruit_in_direction s.grid s.snake d = false)
    (hmv : move_snake d s.grid s.snake = some r) :
    tick s k pick =
      { grid := r.1, snake := r.2, fruit := s.fruit,
        direction := d,
        running := if k = .KEY_ESCAPE then false else s.running } := by
  subst hd; simp [tick, handle_movement, hfr, hmv]

theorem tick_movefail_eq (s : game_state) (k : key_t) (pick : position_t)
    (d : direction_type)
    (hd : updateDirection s.direction k = d)
    (hfr : is_fruit_in_direction s.grid s.snake d = false)
    (hmv : move_snake d s.grid s.snake = none) :
    tick s k pick =
      { grid := s.grid, snake := s.snake, fruit := s.fruit,
        direction := d, running := false } := by
  subst hd; simp [tick, handle_movement, hfr, hmv]

/-! ### `validPick` consequences -/

theorem validPick_iff (f : Grid) (p : position_t) :
    validPick f p = true ↔
      (0 ≤ p.i ∧ p.i ≤ field_height - 1 ∧ 0 ≤ p.j ∧
        p.j ≤ field_height - 1 ∧ f p = .EMPTY) := by
  simp [validPick]

theorem validPick_inBounds (f : Grid) (p : position_t)
    (h : validPick f p = true) : inBounds p := by
  obtain ⟨h1, h2, h3, h4, _⟩ := (validPick_iff f p).mp h
  simp only [inBounds, field_height, field_width] at *
  omega

theorem validPick_empty (f : Grid) (p : position_t)
    (h : validPick f p = true) : f p = .EMPTY :=
  ((validPick_iff f p).mp h).2.2.2.2

/-! ### The fruit branch always finds room -/

theorem fruit_branch_lengthen (s : game_state) (d : direction_type)
    (h : position_t) (t : List position_t) (hInv : GameInv s)
    (hs : s.snake = h :: t)
    (hfr : is_fruit_in_direction s.grid s.snake d = true) :
    candidate d h = s.fruit ∧ candidate d h ∉ s.snake ∧
      lengthen_snake d s.grid s.snake =
        some (update_field s.grid (candidate d h :: h :: t),
          candidate d h :: h :: t) := by
  rw [hs] at hfr
  have hF : s.grid (candidate d h) = .FRUIT := (is_fruit_cons _ _ _ _).mp hfr
  obtain ⟨hcf, hcm⟩ := grid_fruit_inv s hInv (candidate d h) hF
  have hinbh : inBounds h := hInv.inb h (by rw [hs]; exact List.mem_cons_self h t)
  have hcinb : inBounds (candidate d h) := by rw [hcf]; exact hInv.fruit_inb
  have hbf : boundsFail d h = false := by
    cases hbv : boundsFail d h
    · rfl
    · exact absurd hcinb ((boundsFail_iff d h hinbh).mp hbv)
  have hsp : is_space_for_snake s.grid (candidate d h) = true :=
    (is_space_iff _ _).mpr (Or.inr hF)
  refine ⟨hcf, hcm, ?_⟩
  rw [hs, lengthen_snake_cons]
  simp [hbf, hsp]

/-! ### The invariant holds initially -/

theorem snakeInitGrid_apply (q : position_t) :
    snakeInitGrid q = if q = snakeStart then .SNAKE_HEAD else .EMPTY := by
  rw [snakeInitGrid, update_field_apply]
  simp [emptyGrid]

theorem inv_init (p : position_t) (hp : validPick snakeInitGrid p = true) :
    GameInv (init_state p) := by
  have hpe : snakeInitGrid p = .EMPTY := validPick_empty _ _ hp
  have hps : p ≠ snakeStart := by
    intro hq
    rw [hq, snakeInitGrid_apply, if_pos rfl] at hpe
    exact absurd hpe (by decide)
  refine ⟨?_, ?_, ?_, ?_, ?_, ?_, ?_⟩
  · simp [init_state]
  · simp [init_state]
  · intro q hq
    simp only [init_state, List.mem_singleton] at hq
    rw [hq]
    decide
  · simp [init_state]
  · exact validPick_inBounds _ _ hp
  · simp [init_state, hps]
  · intro q
    have hgr : (init_state p).grid q = gridSet snakeInitGrid p .FRUIT q := rfl
    rw [hgr, cellOf_eval (init_state p) snakeStart [] rfl q, gridSet,
      snakeInitGrid_apply]
    have hfr : (init_state p).fruit = p := rfl
    rw [hfr]
    rcases Decidable.em (q = p) with hqp | hqp
    · rw [if_pos hqp, if_neg (by rw [hqp]; exact hps)]
      simp [hqp]
    · rw [if_neg hqp]
      rcases Decidable.em (q = snakeStart) with hqs | hqs
      · rw [if_pos hqs, if_pos hqs]
      · rw [if_neg hqs, if_neg hqs]
        simp [hqp]

/-! ### One tick preserves the invariant -/

theorem inv_tick (s : game_state) (k : key_t) (pick : position_t)
    (hInv : GameInv s) (hp : PickOK s k pick = true) :
    GameInv (tick s k pick) := by
  obtain ⟨d, hd⟩ : ∃ d, updateDirection s.direction k = d := ⟨_, rfl⟩
  obtain ⟨h, t, hs⟩ := List.exists_cons_of_ne_nil hInv.ne
  have hinbh : inBounds h := hInv.inb h (by rw [hs]; exact List.mem_cons_self h t)
  have hnods : (h :: t).Nodup := by rw [← hs]; exact hInv.nodup
  have hadj : List.Chain' adjacent (h :: t) := by rw [← hs]; exact hInv.adj
  have hffr : s.fruit ∉ h :: t := by rw [← hs]; exact hInv.fruit_free
  by_cases hfr : is_fruit_in_direction s.grid s.snake d = true
  · -- fruit ahead: growth then relocation
    obtain ⟨hcf, hcm, hlen⟩ := fruit_branch_lengthen s d h t hInv hs hfr
    have hga : growth_attempt s k = lengthen_snake d s.grid s.snake := by
      rw [growth_attempt_eq s k d hd, if_pos hfr]
    have hvp : validPick (update_field s.grid (candidate d h :: h :: t)) pick
        = true := by
      unfold PickOK at hp
      rw [hga, hlen] at hp
      exact hp
    have htick := tick_fruit_eq s k pick d _ hd hfr hlen
    rw [htick]
    have hcinb : inBounds (candidate d h) := by rw [hcf]; exact hInv.fruit_inb
    have hcne : candidate d h ∉ h :: t := by rw [← hs]; exact hcm
    have hpe : update_field s.grid (candidate d h :: h :: t) pick = .EMPTY :=
      validPick_empty _ _ hvp
    have hpickmem : pick ∉ candidate d h :: h :: t := by
      intro hm
      rw [update_field_apply] at hpe
      rcases Decidable.em (pick ∈ h :: t) with hmem | hmem
      · rw [if_pos hmem] at hpe; exact absurd hpe (by decide)
      · rcases List.mem_cons.mp hm with h1 | h2
        · rw [if_neg hmem, if_pos h1] at hpe; exact absurd hpe (by decide)
        · exact hmem h2
    refine ⟨?_, ?_, ?_, ?_, ?_, ?_, ?_⟩
    · simp
    · exact List.nodup_cons.mpr ⟨hcne, hnods⟩
    · intro q hq
      rcases List.mem_cons.mp hq with h1 | h2
      · rw [h1]; exact hcinb
      · exact hInv.inb q (by rw [hs]; exact h2)
    · exact List.chain'_cons.mpr ⟨adjacent_candidate d h, hadj⟩
    · exact validPick_inBounds _ _ hvp
    · exact hpickmem
    · intro q
      rw [cellOf_eval _ (candidate d h) (h :: t) rfl q]
      dsimp only
      rcases Decidable.em (q = pick) with hqp | hqp
      · subst hqp
        have hpc : q ≠ candidate d h :=
          fun e => hpickmem (by rw [e]; exact List.mem_cons_self _ _)
        have hpm : q ∉ h :: t := fun e => hpickmem (List.mem_cons_of_mem _ e)
        simp [gridSet, hpc, hpm]
      · rcases Decidable.em (q ∈ h :: t) with hm | hm
        · have hqc : q ≠ candidate d h := fun e => hcne (e ▸ hm)
          simp [gridSet, hqp, update_field_apply, hm, hqc]
        · rcases Decidable.em (q = candidate d h) with hqc | hqc
          · subst hqc
            simp [gridSet, hqp, update_field_apply, hm, hcne]
          · have hqh : q ≠ h :=
              fun e => hm (by rw [e]; exact List.mem_cons_self _ _)
            have hqt : q ∉ t := fun e => hm (List.mem_cons_of_mem _ e)
            have hqf : q ≠ s.fruit := by rw [← hcf]; exact hqc
            have hgq : s.grid q = .EMPTY := by
              rw [hInv.corr q, cellOf_eval s h t hs q]
              simp [hqh, hqt, hqf]
            simp [gridSet, hqp, update_field_apply, hm, hqc, hgq]
  · -- no fruit ahead: plain move (or blocked)
    have hfr' : is_fruit_in_direction s.grid s.snake d = false := by
      cases hbv : is_fruit_in_direction s.grid s.snake d
      · rfl
      · exact absurd hbv hfr
    cases hmv : move_snake d s.grid s.snake with
    | none =>
      have htick := tick_movefail_eq s k pick d hd hfr' hmv
      rw [htick]
      refine ⟨hInv.ne, hInv.nodup, hInv.inb, hInv.adj, hInv.fruit_inb,
        hInv.fruit_free, ?_⟩
      intro q
      exact (hInv.corr q).trans (cellOf_congr _ s rfl rfl q).symm
    | some r =>
      have hmv0 : move_snake d s.grid s.snake = some r := hmv
      unfold move_snake at hmv0
      obtain ⟨r0, hlen0, hpop⟩ := Option.map_eq_some'.mp hmv0
      rw [hs, lengthen_snake_eq_some_iff] at hlen0
      obtain ⟨hbf, hsp, hr0⟩ := hlen0
      subst hr0
      dsimp only at hpop
      have hF : ¬ s.grid (candidate d h) = .FRUIT := by
        intro hfF
        rw [hs] at hfr'
        rw [(is_fruit_cons s.grid h t d).mpr hfF] at hfr'
        exact absurd hfr' (by decide)
      have hFc : s.grid (candidate d h) = .EMPTY :=
        ((is_space_iff _ _).mp hsp).resolve_right hF
      obtain ⟨hcm, hcfr⟩ := grid_empty_inv s hInv (candidate d h) hFc
      have hcinb : inBounds (candidate d h) := by
        by_contra hn
        rw [(boundsFail_iff d h hinbh).mpr hn] at hbf
        exact absurd hbf (by decide)
      have hht : (h :: t) ≠ [] := by simp
      obtain ⟨D, b, hDb⟩ : ∃ D b, h :: t = D ++ [b] :=
        ⟨(h :: t).dropLast, (h :: t).getLast hht,
          (List.dropLast_append_getLast hht).symm⟩
      have hL : candidate d h :: h :: t = (candidate d h :: D) ++ [b] := by
        rw [hDb, List.cons_append]
      have hgl : (candidate d h :: h :: t).getLast? = some b := by
        rw [hL]; exact List.getLast?_concat _
      have hdl : (candidate d h :: h :: t).dropLast = candidate d h :: D := by
        rw [hL, List.dropLast_concat]
      have hr : r = (gridSet (update_field s.grid (candidate d h :: h :: t))
          b .EMPTY, candidate d h :: D) := by
        rw [← hpop]
        simp only [pop_back_snake_body, hgl, hdl]
      subst hr
      have htick := tick_moveok_eq s k pick d _ hd hfr' hmv
      rw [htick]
      dsimp only
      have hcne : candidate d h ∉ h :: t := by rw [← hs]; exact hcm
      have hnodL : ((candidate d h :: D) ++ [b]).Nodup := by
        rw [← hL]; exact List.nodup_cons.mpr ⟨hcne, hnods⟩
      have hnodCD : (candidate d h :: D).Nodup := (List.nodup_append.mp hnodL).1
      have hdisj : (candidate d h :: D).Disjoint [b] :=
        (List.nodup_append.mp hnodL).2.2
      have hbCD : b ∉ candidate d h :: D :=
        fun hmem => hdisj hmem (List.mem_singleton_self b)
      have hDmem : ∀ p ∈ D, p ∈ h :: t := by
        intro p hpD
        rw [hDb]
        exact List.mem_append_left _ hpD
      have hbm : b ∈ h :: t := by
        rw [hDb]
        exact List.mem_append_right _ (List.mem_singleton_self b)
      have hchainL : List.Chain' adjacent ((candidate d h :: D) ++ [b]) := by
        rw [← hL]; exact List.chain'_cons.mpr ⟨adjacent_candidate d h, hadj⟩
      refine ⟨?_, ?_, ?_, ?_, ?_, ?_, ?_⟩
      · simp
      · exact hnodCD
      · intro q hq
        rcases List.mem_cons.mp hq with h1 | h2
        · rw [h1]; exact hcinb
        · exact hInv.inb q (by rw [hs]; exact hDmem q h2)
      · exact (List.chain'_append.mp hchainL).1
      · exact hInv.fruit_inb
      · intro hmem
        rcases List.mem_cons.mp hmem with h1 | h2
        · exact hcfr h1.symm
        · exact hffr (hDmem _ h2)
      · intro q
        rw [cellOf_eval _ (candidate d h) D rfl q]
        dsimp only
        rcases Decidable.em (q = b) with hqb | hqb
        · subst hqb
          have hb1 : q ≠ candidate d h :=
            fun e => hbCD (by rw [← e]; exact List.mem_cons_self _ _)
          have hb2 : q ∉ D := fun e => hbCD (List.mem_cons_of_mem _ e)
          have hb3 : q ≠ s.fruit := fun e => hffr (e ▸ hbm)
          simp [gridSet, hb1, hb2, hb3]
        · rcases Decidable.em (q ∈ h :: t) with hm | hm
          · have hqD : q ∈ D := by
              rw [hDb] at hm
              rcases List.mem_append.mp hm with h1 | h1
              · exact h1
              · exact absurd (List.mem_singleton.mp h1) hqb
            have hqc : q ≠ candidate d h := fun e => hcne (e ▸ hm)
            simp [gridSet, hqb, update_field_apply, hm, hqc, hqD]
          · rcases Decidable.em (q = candidate d h) with hqc | hqc
            · subst hqc
              simp [gridSet, hqb, update_field_apply, hm, hcne]
            · have hqD : q ∉ D := fun e => hm (hDmem q e)
              have hqh : q ≠ h :=
                fun e => hm (by rw [e]; exact List.mem_cons_self _ _)
              have hqt : q ∉ t := fun e => hm (List.mem_cons_of_mem _ e)
              have hgq : s.grid q = if q = s.fruit then .FRUIT else .EMPTY := by
                rw [hInv.corr q, cellOf_eval s h t hs q]
                simp [hqh, hqt]
              simp [gridSet, hqb, update_field_apply, hm, hqc, hqD, hgq]

/-- Every reachable session state satisfies the invariant. -/
theorem inv_of_reachable (s : game_state) (h : Reachable s) : GameInv s := by
  induction h with
  | init p hp => exact inv_init p hp
  | step s k pick hs hrun hp ih => exact inv_tick s k pick ih hp

/-! ### Further helper lemmas -/

theorem cellOf_cases (s : game_state) (p : position_t) :
    cellOf s p = .EMPTY ∨ cellOf s p = .SNAKE_HEAD ∨
    cellOf s p = .SNAKE_BODY ∨ cellOf s p = .FRUIT := by
  unfold cellOf
  split
  · simp
  · split
    · simp
    · split <;> simp

theorem is_space_false_iff (f : Grid) (p : position_t) :
    is_space_for_snake f p = false ↔
      (f p ≠ .EMPTY ∧ f p ≠ .FRUIT) := by
  simp [is_space_for_snake, not_or]

theorem snake_head_length (s : game_state) (hInv : GameInv s) :
    1 ≤ s.snake.length := by
  obtain ⟨h, t, hs⟩ := List.exists_cons_of_ne_nil hInv.ne
  rw [hs]
  simp

/-! ### Claim theorems -/

/-- Claim C9: for every current heading and the directional input that is
its exact reverse, the tick leaves the stored heading unchanged — for
every session state, in particular a length-1 snake. -/
theorem c9_reversal_ignored (s : game_state) (pick : position_t) :
    (tick s (key_of_direction (reverse_direction s.direction)) pick).direction
      = s.direction := by
  obtain ⟨g, sn, fr, dir, run⟩ := s
  show updateDirection dir (key_of_direction (reverse_direction dir)) = dir
  cases dir <;> rfl

/-- Claim C1 (amended): an escape key during a tick clears the running
flag, so the session ends with that tick; but the same tick's movement
still executes — the resulting state is exactly the state of the
corresponding non-quit tick with the running flag forced to false, and
the reported score is the snake length after that final movement. -/
theorem c1_escape_tick_amended (s : game_state) (pick : position_t) :
    (tick s .KEY_ESCAPE pick).running = false ∧
    tick s .KEY_ESCAPE pick = { tick s .KEY_OTHER pick with running := false } ∧
    session_score (tick s .KEY_ESCAPE pick) =
      (tick s .KEY_OTHER pick).snake.length := by
  refine ⟨by simp [tick], by simp [tick, updateDirection], by simp [tick, session_score, updateDirection]⟩

/-- Claim C1 counterexample: in a reachable fresh session with the fruit
directly above the head, the tick that reads escape still grows the snake
(length 1 to 2) and relocates the fruit, so the reported score is 2, not
the length 1 current when quit was read. -/
theorem c1_counterexample :
    Reachable quit_tick_start ∧
    quit_tick_start.snake.length = 1 ∧
    Reachable (tick quit_tick_start .KEY_ESCAPE ⟨0, 0⟩) ∧
    (tick quit_tick_start .KEY_ESCAPE ⟨0, 0⟩).running = false ∧
    session_score (tick quit_tick_start .KEY_ESCAPE ⟨0, 0⟩) = 2 ∧
    (tick quit_tick_start .KEY_ESCAPE ⟨0, 0⟩).fruit ≠ quit_tick_start.fruit := by
  have h0 : Reachable quit_tick_start := Reachable.init ⟨3, 4⟩ (by decide)
  exact ⟨h0, by decide,
    Reachable.step _ .KEY_ESCAPE ⟨0, 0⟩ h0 (by decide) (by decide),
    by decide, by decide, by decide⟩

/-- Claim C2: refuted — `edge_state` is a reachable running state (head at
`(0,4)`, heading up) whose tick inspects the cell `(-1,4)`, which lies
outside the grid; the source reads it through the unchecked `operator()`
in `is_fruit_in_direction`, while the bounds-checked accessor `at` (which
the tick path never calls) would have returned the `ERROR` sentinel. -/
theorem c2_fruit_query_out_of_bounds :
    Reachable edge_state ∧ edge_state.running = true ∧
    fruit_query_pos edge_state .KEY_OTHER = some ⟨-1, 4⟩ ∧
    ¬ inBounds ⟨-1, 4⟩ ∧
    field_at edge_state.grid (-1) 4 = .ERROR := by
  have h0 : Reachable (init_state ⟨9, 9⟩) := Reachable.init ⟨9, 9⟩ (by decide)
  have h1 := Reachable.step _ .KEY_OTHER ⟨9, 9⟩ h0 (by decide) (by decide)
  have h2 := Reachable.step _ .KEY_OTHER ⟨9, 9⟩ h1 (by decide) (by decide)
  have h3 := Reachable.step _ .KEY_OTHER ⟨9, 9⟩ h2 (by decide) (by decide)
  have h4 := Reachable.step _ .KEY_OTHER ⟨9, 9⟩ h3 (by decide) (by decide)
  exact ⟨h4, by decide, by decide, by decide, by decide⟩

/-- Claim C3: under the snake invariant, the directional lengthen
operation signals `BlockedMove` exactly when the candidate head cell is
out of bounds or holds `SNAKE_HEAD` or `SNAKE_BODY`; on success it
prepends the candidate as the new head. -/
theorem c3_blocked_characterization (s : game_state) (d : direction_type)
    (h : position_t) (t : List position_t) (hInv : GameInv s)
    (hs : s.snake = h :: t) :
    (lengthen_snake d s.grid s.snake = none ↔
      ¬ inBounds (candidate d h) ∨
      s.grid (candidate d h) = .SNAKE_HEAD ∨
      s.grid (candidate d h) = .SNAKE_BODY) ∧
    ∀ r, lengthen_snake d s.grid s.snake = some r →
      r.2 = candidate d h :: h :: t := by
  have hinbh : inBounds h := hInv.inb h (by rw [hs]; exact List.mem_cons_self h t)
  constructor
  · rw [hs, lengthen_snake_eq_none_iff]
    constructor
    · rintro (hb | hsp)
      · exact Or.inl ((boundsFail_iff d h hinbh).mp hb)
      · obtain ⟨he, hf⟩ := (is_space_false_iff _ _).mp hsp
        rcases cellOf_cases s (candidate d h) with h1 | h1 | h1 | h1 <;>
          rw [hInv.corr (candidate d h)] at he hf ⊢
        · exact absurd h1 he
        · exact Or.inr (Or.inl h1)
        · exact Or.inr (Or.inr h1)
        · exact absurd h1 hf
    · rintro (hb | hc | hc)
      · exact Or.inl ((boundsFail_iff d h hinbh).mpr hb)
      · refine Or.inr ((is_space_false_iff _ _).mpr ⟨?_, ?_⟩) <;>
          rw [hc] <;> decide
      · refine Or.inr ((is_space_false_iff _ _).mpr ⟨?_, ?_⟩) <;>
          rw [hc] <;> decide
  · intro r hr
    rw [hs, lengthen_snake_eq_some_iff] at hr
    rw [hr.2.2]

/-- Witness for claim C3: the fresh session with the fruit at `(9,9)`
satisfies the invariant, and the characterization holds there for the up
move of the length-1 snake at `(4,4)`. -/
theorem c3_witness :
    GameInv (init_state ⟨9, 9⟩) ∧ (init_state ⟨9, 9⟩).snake = [snakeStart] ∧
    ((lengthen_snake .UP (init_state ⟨9, 9⟩).grid (init_state ⟨9, 9⟩).snake
        = none ↔
      ¬ inBounds (candidate .UP snakeStart) ∨
      (init_state ⟨9, 9⟩).grid (candidate .UP snakeStart) = .SNAKE_HEAD ∨
      (init_state ⟨9, 9⟩).grid (candidate .UP snakeStart) = .SNAKE_BODY) ∧
    ∀ r, lengthen_snake .UP (init_state ⟨9, 9⟩).grid (init_state ⟨9, 9⟩).snake
        = some r → r.2 = candidate .UP snakeStart :: [snakeStart]) := by
  have hInv := inv_init ⟨9, 9⟩ (by decide)
  exact ⟨hInv, rfl, c3_blocked_characterization _ .UP snakeStart [] hInv rfl⟩

/-- Claim C5: in every reachable session state the snake has length at
least 1, its positions are pairwise distinct and in bounds, and
consecutive positions are grid-adjacent. -/
theorem c5_snake_invariant (s : game_state) (hreach : Reachable s) :
    1 ≤ s.snake.length ∧ s.snake.Nodup ∧ (∀ p ∈ s.snake, inBounds p) ∧
    s.snake.Chain' adjacent := by
  have hInv := inv_of_reachable s hreach
  exact ⟨snake_head_length s hInv, hInv.nodup, hInv.inb, hInv.adj⟩

/-- Witness for claim C5: the invariant instantiated at a reachable fresh
session. -/
theorem c5_witness :
    Reachable (init_state ⟨9, 9⟩) ∧
    (1 ≤ (init_state ⟨9, 9⟩).snake.length ∧ (init_state ⟨9, 9⟩).snake.Nodup ∧
      (∀ p ∈ (init_state ⟨9, 9⟩).snake, inBounds p) ∧
      (init_state ⟨9, 9⟩).snake.Chain' adjacent) := by
  have h0 : Reachable (init_state ⟨9, 9⟩) := Reachable.init ⟨9, 9⟩ (by decide)
  exact ⟨h0, c5_snake_invariant _ h0⟩

/-- Claim C6: a tick whose movement or growth signals `BlockedMove` ends
the session with the snake unchanged, so the reported score equals the
snake length at the time of death. -/
theorem c6_blocked_ends_session (s : game_state) (k : key_t)
    (pick : position_t) (hb : tickBlocked s k = true) :
    (tick s k pick).running = false ∧
    (tick s k pick).snake = s.snake ∧
    session_score (tick s k pick) = s.snake.length := by
  obtain ⟨d, hd⟩ : ∃ d, updateDirection s.direction k = d := ⟨_, rfl⟩
  simp only [tickBlocked] at hb
  rw [hd] at hb
  by_cases hfr : is_fruit_in_direction s.grid s.snake d = true
  · rw [if_pos hfr] at hb
    have hlen : lengthen_snake d s.grid s.snake = none :=
      Option.isNone_iff_eq_none.mp hb
    rw [tick_fruitfail_eq s k pick d hd hfr hlen]
    exact ⟨rfl, rfl, rfl⟩
  · have hfr' : is_fruit_in_direction s.grid s.snake d = false := by
      cases hbv : is_fruit_in_direction s.grid s.snake d
      · rfl
      · exact absurd hbv hfr
    rw [if_neg hfr] at hb
    have hmv : move_snake d s.grid s.snake = none :=
      Option.isNone_iff_eq_none.mp hb
    rw [tick_movefail_eq s k pick d hd hfr' hmv]
    exact ⟨rfl, rfl, rfl⟩

/-- Witness for claim C6: from `edge_state` (head on the top edge, heading
up) the next tick's move is blocked, the session ends and the score equals
the length at death. -/
theorem c6_witness :
    tickBlocked edge_state .KEY_OTHER = true ∧
    ((tick edge_state .KEY_OTHER ⟨0, 0⟩).running = false ∧
      (tick edge_state .KEY_OTHER ⟨0, 0⟩).snake = edge_state.snake ∧
      session_score (tick edge_state .KEY_OTHER ⟨0, 0⟩) =
        edge_state.snake.length) :=
  ⟨by decide, c6_blocked_ends_session edge_state .KEY_OTHER ⟨0, 0⟩ (by decide)⟩

theorem mem_boundedPos (p : position_t) : p ∈ boundedPos ↔ inBounds p := by
  rw [boundedPos, Finset.mem_image]
  constructor
  · rintro ⟨q, hq, rfl⟩
    rw [Finset.mem_product, Finset.mem_Icc, Finset.mem_Icc] at hq
    simp only [field_height, field_width] at hq
    simp only [inBounds, field_height, field_width]
    omega
  · intro hp
    refine ⟨(p.i, p.j), ?_, rfl⟩
    rw [Finset.mem_product, Finset.mem_Icc, Finset.mem_Icc]
    simp only [inBounds, field_height, field_width] at hp
    simp only [field_height, field_width]
    omega

theorem grid_census (s : game_state) (hInv : GameInv s) :
    countCell s .SNAKE_HEAD = 1 ∧
    countCell s .SNAKE_BODY = s.snake.length - 1 ∧
    countCell s .FRUIT = 1 := by
  obtain ⟨h, t, hs⟩ := List.exists_cons_of_ne_nil hInv.ne
  have hnods : (h :: t).Nodup := by rw [← hs]; exact hInv.nodup
  have hht : h ∉ t := (List.nodup_cons.mp hnods).1
  have hffr : s.fruit ∉ h :: t := by rw [← hs]; exact hInv.fruit_free
  refine ⟨?_, ?_, ?_⟩
  · have hfe : boundedPos.filter (fun p => s.grid p = .SNAKE_HEAD) = {h} := by
      apply Finset.ext
      intro p
      simp only [Finset.mem_filter, Finset.mem_singleton, mem_boundedPos]
      constructor
      · rintro ⟨hb, hcell⟩
        rw [hInv.corr, cellOf_eval s h t hs] at hcell
        rcases Decidable.em (p = h) with hph | hph
        · exact hph
        · exfalso
          rw [if_neg hph] at hcell
          rcases Decidable.em (p ∈ t) with hpt | hpt
          · rw [if_pos hpt] at hcell; exact absurd hcell (by decide)
          · rw [if_neg hpt] at hcell
            rcases Decidable.em (p = s.fruit) with hpf | hpf
            · rw [if_pos hpf] at hcell; exact absurd hcell (by decide)
            · rw [if_neg hpf] at hcell; exact absurd hcell (by decide)
      · intro hph
        subst hph
        refine ⟨hInv.inb p (by rw [hs]; exact List.mem_cons_self p t), ?_⟩
        rw [hInv.corr, cellOf_eval s p t hs]
        simp
    rw [countCell, hfe, Finset.card_singleton]
  · have hfe : boundedPos.filter (fun p => s.grid p = .SNAKE_BODY)
        = t.toFinset := by
      apply Finset.ext
      intro p
      simp only [Finset.mem_filter, mem_boundedPos, List.mem_toFinset]
      constructor
      · rintro ⟨hb, hcell⟩
        rw [hInv.corr, cellOf_eval s h t hs] at hcell
        rcases Decidable.em (p = h) with hph | hph
        · rw [if_pos hph] at hcell; exact absurd hcell (by decide)
        · rw [if_neg hph] at hcell
          rcases Decidable.em (p ∈ t) with hpt | hpt
          · exact hpt
          · exfalso
            rw [if_neg hpt] at hcell
            rcases Decidable.em (p = s.fruit) with hpf | hpf
            · rw [if_pos hpf] at hcell; exact absurd hcell (by decide)
            · rw [if_neg hpf] at hcell; exact absurd hcell (by decide)
      · intro hpt
        have hph : p ≠ h := fun e => hht (e ▸ hpt)
        refine ⟨hInv.inb p (by rw [hs]; exact List.mem_cons_of_mem h hpt), ?_⟩
        rw [hInv.corr, cellOf_eval s h t hs, if_neg hph, if_pos hpt]
    rw [countCell, hfe, List.toFinset_card_of_nodup (List.nodup_cons.mp hnods).2,
      hs]
    simp
  · have hfe : boundedPos.filter (fun p => s.grid p = .FRUIT)
        = {s.fruit} := by
      apply Finset.ext
      intro p
      simp only [Finset.mem_filter, Finset.mem_singleton, mem_boundedPos]
      constructor
      · rintro ⟨hb, hcell⟩
        exact (grid_fruit_inv s hInv p hcell).1
      · rintro rfl
        exact ⟨hInv.fruit_inb, grid_at_fruit s hInv⟩
    rw [countCell, hfe, Finset.card_singleton]

/-- Claim C4: every reachable running session state has exactly one
`SNAKE_HEAD` cell, exactly `length - 1` `SNAKE_BODY` cells, at most one
`FRUIT` cell, and every other in-bounds cell is `EMPTY`. -/
theorem c4_grid_census (s : game_state) (hreach : Reachable s)
    (_hrun : s.running = true) :
    countCell s .SNAKE_HEAD = 1 ∧
    countCell s .SNAKE_BODY = s.snake.length - 1 ∧
    countCell s .FRUIT ≤ 1 ∧
    ∀ p, inBounds p → p ∉ s.snake → p ≠ s.fruit → s.grid p = .EMPTY := by
  have hInv := inv_of_reachable s hreach
  obtain ⟨hh, hb, hf⟩ := grid_census s hInv
  refine ⟨hh, hb, le_of_eq hf, ?_⟩
  intro p hpb hpm hpf
  obtain ⟨h, t, hs⟩ := List.exists_cons_of_ne_nil hInv.ne
  rw [hs] at hpm
  simp only [List.mem_cons, not_or] at hpm
  rw [hInv.corr, cellOf_eval s h t hs, if_neg hpm.1, if_neg hpm.2, if_neg hpf]

/-- Witness for claim C4: the census at a reachable fresh running
session. -/
theorem c4_witness :
    Reachable (init_state ⟨9, 9⟩) ∧ (init_state ⟨9, 9⟩).running = true ∧
    (countCell (init_state ⟨9, 9⟩) .SNAKE_HEAD = 1 ∧
      countCell (init_state ⟨9, 9⟩) .SNAKE_BODY
        = (init_state ⟨9, 9⟩).snake.length - 1 ∧
      countCell (init_state ⟨9, 9⟩) .FRUIT ≤ 1 ∧
      ∀ p, inBounds p → p ∉ (init_state ⟨9, 9⟩).snake →
        p ≠ (init_state ⟨9, 9⟩).fruit → (init_state ⟨9, 9⟩).grid p = .EMPTY) := by
  have h0 : Reachable (init_state ⟨9, 9⟩) := Reachable.init ⟨9, 9⟩ (by decide)
  exact ⟨h0, rfl, c4_grid_census _ h0 rfl⟩

/-- Claim C7: every fruit position chosen at construction or at a
relocation is `EMPTY` on the grid at assignment time — hence distinct from
every snake position — and is then marked `FRUIT`. -/
theorem c7_fruit_placement :
    (∀ p, validPick snakeInitGrid p = true →
      snakeInitGrid p = .EMPTY ∧ p ∉ (init_state p).snake ∧
      (init_state p).grid p = .FRUIT ∧ (init_state p).fruit = p) ∧
    (∀ (s : game_state) (k : key_t) (pick : position_t)
        (r : Grid × List position_t),
      growth_attempt s k = some r → validPick r.1 pick = true →
      r.1 pick = .EMPTY ∧ pick ∉ r.2 ∧
      (tick s k pick).grid pick = .FRUIT ∧ (tick s k pick).fruit = pick ∧
      (tick s k pick).snake = r.2) := by
  constructor
  · intro p hp
    have hpe := validPick_empty _ _ hp
    refine ⟨hpe, ?_, ?_, rfl⟩
    · intro hm
      simp only [init_state, List.mem_singleton] at hm
      rw [hm, snakeInitGrid_apply, if_pos rfl] at hpe
      exact absurd hpe (by decide)
    · show gridSet snakeInitGrid p .FRUIT p = .FRUIT
      rw [gridSet, if_pos rfl]
  · intro s k pick r hga hvp
    obtain ⟨d, hd⟩ : ∃ d, updateDirection s.direction k = d := ⟨_, rfl⟩
    rw [growth_attempt_eq s k d hd] at hga
    by_cases hfr : is_fruit_in_direction s.grid s.snake d = true
    · rw [if_pos hfr] at hga
      cases hsn : s.snake with
      | nil => rw [hsn] at hga; exact absurd hga (by simp [lengthen_snake])
      | cons h t =>
        rw [hsn, lengthen_snake_eq_some_iff] at hga
        obtain ⟨hbf, hsp, hr⟩ := hga
        subst hr
        have hlen : lengthen_snake d s.grid s.snake =
            some (update_field s.grid (candidate d h :: h :: t),
              candidate d h :: h :: t) := by
          rw [hsn, lengthen_snake_eq_some_iff]
          exact ⟨hbf, hsp, rfl⟩
        have htick := tick_fruit_eq s k pick d _ hd hfr hlen
        have hpe : update_field s.grid (candidate d h :: h :: t) pick
            = .EMPTY := validPick_empty _ _ hvp
        refine ⟨hpe, ?_, ?_, ?_, ?_⟩
        · intro hm
          rw [update_field_apply] at hpe
          rcases Decidable.em (pick ∈ h :: t) with hmem | hmem
          · rw [if_pos hmem] at hpe; exact absurd hpe (by decide)
          · rcases List.mem_cons.mp hm with h1 | h2
            · rw [if_neg hmem, if_pos h1] at hpe; exact absurd hpe (by decide)
            · exact hmem h2
        · rw [htick]
          show gridSet _ pick .FRUIT pick = .FRUIT
          rw [gridSet, if_pos rfl]
        · rw [htick]
        · rw [htick]
    · rw [if_neg hfr] at hga
      exact absurd hga (by simp)

/-- Witness for claim C7: the fresh-session clause at sample `(9,9)` and
the relocation clause at the growth tick of `quit_tick_start` with
relocation sample `(0,0)`. -/
theorem c7_witness :
    (validPick snakeInitGrid ⟨9, 9⟩ = true ∧
      (snakeInitGrid ⟨9, 9⟩ = .EMPTY ∧
        (⟨9, 9⟩ : position_t) ∉ (init_state ⟨9, 9⟩).snake ∧
        (init_state ⟨9, 9⟩).grid ⟨9, 9⟩ = .FRUIT ∧
        (init_state ⟨9, 9⟩).fruit = ⟨9, 9⟩)) ∧
    (growth_attempt (init_state ⟨3, 4⟩) .KEY_OTHER = some c7_growth ∧
      validPick c7_growth.1 ⟨0, 0⟩ = true ∧
      (c7_growth.1 ⟨0, 0⟩ = .EMPTY ∧
        (⟨0, 0⟩ : position_t) ∉ c7_growth.2 ∧
        (tick (init_state ⟨3, 4⟩) .KEY_OTHER ⟨0, 0⟩).grid ⟨0, 0⟩ = .FRUIT ∧
        (tick (init_state ⟨3, 4⟩) .KEY_OTHER ⟨0, 0⟩).fruit = ⟨0, 0⟩ ∧
        (tick (init_state ⟨3, 4⟩) .KEY_OTHER ⟨0, 0⟩).snake = c7_growth.2)) := by
  refine ⟨⟨by decide, c7_fruit_placement.1 ⟨9, 9⟩ (by decide)⟩,
    ⟨rfl, by decide, c7_fruit_placement.2 _ .KEY_OTHER ⟨0, 0⟩ c7_growth rfl
      (by decide)⟩⟩

/-- Claim C8 counterexample: with the freshly constructed snake grid —
which still has empty cells, e.g. `(0,0)` — the sample stream that always
returns the snake's cell `(4,4)` makes the rejection-sampling loop of
`gen_new_position` run forever. -/
theorem c8_counterexample :
    snakeInitGrid ⟨0, 0⟩ = .EMPTY ∧
    gen_never_returns snakeInitGrid (fun _ => snakeStart) := by
  refine ⟨by decide, ?_⟩
  intro fuel
  induction fuel with
  | zero => intro k; rfl
  | succ n ih =>
    intro k
    show gen_loop snakeInitGrid (fun _ => snakeStart) k (n + 1) = none
    simp only [gen_loop]
    rw [if_neg (by decide)]
    exact ih (k + 1)

/-- Claim C8 (amended): the fruit-position sampling loop terminates, with
an `EMPTY` result, for every grid and every sample stream that eventually
samples an `EMPTY` cell; it does not terminate for every stream, even on
grids with empty cells. -/
theorem c8_gen_terminates (f : Grid) (stream : Nat → position_t)
    (h : ∃ n, f (stream n) = .EMPTY) :
    ∃ fuel p, gen_loop f stream 0 fuel = some p ∧ f p = .EMPTY := by
  obtain ⟨n, hn⟩ := h
  have key : ∀ n k, f (stream (k + n)) = .EMPTY →
      ∃ fuel p, gen_loop f stream k fuel = some p ∧ f p = .EMPTY := by
    intro n
    induction n with
    | zero =>
      intro k hk
      rw [Nat.add_zero] at hk
      exact ⟨1, stream k, by simp [gen_loop, hk], hk⟩
    | succ m ih =>
      intro k hk
      by_cases hek : f (stream k) = .EMPTY
      · exact ⟨1, stream k, by simp [gen_loop, hek], hek⟩
      · obtain ⟨fuel, p, hfp, hpe⟩ := ih (k + 1) (by
          have harr : k + 1 + m = k + (m + 1) := by omega
          rw [harr]; exact hk)
        exact ⟨fuel + 1, p, by simp [gen_loop, hek, hfp], hpe⟩
  exact key n 0 (by simpa using hn)

/-- Witness for claim C8 (amended): the constant stream at `(0,0)` hits an
empty cell of the fresh snake grid at once, and the loop returns it. -/
theorem c8_witness :
    (∃ n : Nat,
      snakeInitGrid ((fun _ : Nat => (⟨0, 0⟩ : position_t)) n) = .EMPTY) ∧
    (∃ fuel p,
      gen_loop snakeInitGrid (fun _ : Nat => (⟨0, 0⟩ : position_t)) 0 fuel
        = some p ∧ snakeInitGrid p = .EMPTY) :=
  ⟨⟨0, by decide⟩, c8_gen_terminates _ _ ⟨0, by decide⟩⟩

/-- Claim C10: from a reachable running state in which the cell one step
ahead in the post-switch heading is `FRUIT`, the growth always succeeds —
it lengthens the snake by one, the tick is never blocked, and (unless the
key was escape) the session stays running. -/
theorem c10_fruit_never_kills (s : game_state) (k : key_t)
    (pick : position_t) (hreach : Reachable s) (hrun : s.running = true)
    (hfr : is_fruit_in_direction s.grid s.snake
      (updateDirection s.direction k) = true) :
    (∃ r, lengthen_snake (updateDirection s.direction k) s.grid s.snake
        = some r ∧ r.2.length = s.snake.length + 1) ∧
    tickBlocked s k = false ∧
    (k ≠ .KEY_ESCAPE → (tick s k pick).running = true) := by
  have hInv := inv_of_reachable s hreach
  obtain ⟨h, t, hs⟩ := List.exists_cons_of_ne_nil hInv.ne
  obtain ⟨hcf, hcm, hlen⟩ := fruit_branch_lengthen s _ h t hInv hs hfr
  refine ⟨⟨_, hlen, ?_⟩, ?_, ?_⟩
  · rw [hs]
    simp
  · simp only [tickBlocked]
    rw [if_pos hfr, hlen]
    rfl
  · intro hk
    rw [tick_fruit_eq s k pick _ _ rfl hfr hlen]
    show (if k = .KEY_ESCAPE then false else s.running) = true
    rw [if_neg hk, hrun]

/-- Witness for claim C10: a reachable fresh session with the fruit
directly above the head grows to length 2 and keeps running. -/
theorem c10_witness :
    Reachable (init_state ⟨3, 4⟩) ∧ (init_state ⟨3, 4⟩).running = true ∧
    is_fruit_in_direction (init_state ⟨3, 4⟩).grid (init_state ⟨3, 4⟩).snake
      (updateDirection (init_state ⟨3, 4⟩).direction .KEY_OTHER) = true ∧
    ((∃ r, lengthen_snake
        (updateDirection (init_state ⟨3, 4⟩).direction .KEY_OTHER)
        (init_state ⟨3, 4⟩).grid (init_state ⟨3, 4⟩).snake = some r ∧
        r.2.length = (init_state ⟨3, 4⟩).snake.length + 1) ∧
      tickBlocked (init_state ⟨3, 4⟩) .KEY_OTHER = false ∧
      (key_t.KEY_OTHER ≠ key_t.KEY_ESCAPE →
        (tick (init_state ⟨3, 4⟩) .KEY_OTHER ⟨0, 0⟩).running = true)) := by
  have h0 : Reachable (init_state ⟨3, 4⟩) := Reachable.init ⟨3, 4⟩ (by decide)
  exact ⟨h0, rfl, by decide,
    c10_fruit_never_kills _ .KEY_OTHER ⟨0, 0⟩ h0 rfl (by decide)⟩
